import Mathlib

/-!
Verification of the replication core of a distributed training system
(Go sources: raft.go, main.go).

The Go code is shallowly embedded: every exported operation of the
consensus node (the RPC handlers, `Replicate`, the election transition,
the apply loop, persistence) becomes a pure Lean function on an explicit
`RaftNode` state, and the persisted state file becomes an explicit
`Option PersistedState` value threaded through the operations.  Dynamic
JSON values appearing on the wire are modelled by the inductive `JVal`;
Go type assertions with the `, ok` form become pattern matches that
default exactly as the Go code does.
-/

namespace Raft

/-- A dynamically typed JSON value, as handled by Go's
`map[string]interface{}` after `json.Unmarshal`.  Numbers carried by the
protocol are integers (terms, indices, ports), so they are modelled by
`Int`. -/
inductive JVal where
  | null
  | jbool (b : Bool)
  | num (n : Int)
  | str (s : String)
  | arr (xs : List JVal)
  | obj (fields : List (String × JVal))


/-- A command payload: the Go type `map[string]interface{}`, represented
as an association list of fields. -/
abbrev Cmd := List (String × JVal)

/-- Field lookup in a JSON object, as `m["key"]` on a Go map. -/
def lookupField (fields : Cmd) (key : String) : Option JVal :=
  match fields with
  | [] => none
  | (k, v) :: rest => if k = key then some v else lookupField rest key

/-- Go conversion `v.(string)` with the `, ok` form: yields `""` when the assertion
fails, as `s, _ := v.(string)` does in Go. -/
def JVal.asString0 : JVal → String
  | .str s => s
  | _ => ""

/-- Go conversion `v.(float64)` with the `, ok` form, converted with `int(...)`:
yields `0` when the assertion fails. -/
def JVal.asNum0 : JVal → Int
  | .num n => n
  | _ => 0

/-- A RAFT log entry: `LogEntry{Term, Command}` from raft.go.  The Go
`Command` field is a map that can be `nil`; `none` models `nil`. -/
structure LogEntry where
  term : Int
  command : Option Cmd


/-- A peer descriptor (`Peer` in raft.go); only the fields the consensus
core reads. -/
structure Peer where
  host : String
  port : Int
deriving DecidableEq


/-- Leader info record (`LeaderInfo` in raft.go): host and client port. -/
structure LeaderInfo where
  host : String
  workerPort : Int
deriving DecidableEq


/-- The state of a `RaftNode` (raft.go): identity, persistent state,
volatile state, current role and leader hint, and the configured
persistence path.  `heartbeatIntervalMs` models the
`heartbeatInterval` duration in milliseconds. -/
structure RaftNode where
  id : String
  host : String
  port : Int
  workerPort : Int
  peers : List Peer
  currentTerm : Int
  votedFor : String
  log : List LogEntry
  commitIndex : Int
  lastApplied : Int
  state : String
  leader : Option LeaderInfo
  heartbeatIntervalMs : Int
  persistencePath : String


/-- The content of `raft_state.json` (`saveState` writes exactly the
triple `current_term`, `voted_for`, `log`). -/
structure PersistedState where
  current_term : Int
  voted_for : String
  log : List LogEntry


/-- The persisted-state file: `none` models an absent file. -/
abbrev FS := Option PersistedState

/-- Constructor `NewRaftNode` from raft.go, with `SetPersistencePath` folded in as
done at startup in main.go.  Initial term 0, empty vote, empty log,
`commitIndex = lastApplied = -1`, role follower, 1-second heartbeat. -/
def NewRaftNode (id host : String) (port : Int) (peers : List Peer)
    (workerPort : Int) (persistencePath : String) : RaftNode :=
  { id := id
    host := host
    port := port
    workerPort := workerPort
    peers := peers
    currentTerm := 0
    votedFor := ""
    log := []
    commitIndex := -1
    lastApplied := -1
    state := "follower"
    leader := none
    heartbeatIntervalMs := 1000
    persistencePath := persistencePath }

/-- Function `saveState` (raft.go): a no-op when no persistence path is set,
otherwise an atomic overwrite of `raft_state.json` with the triple
`(currentTerm, votedFor, log)`. -/
def saveState (rn : RaftNode) (fs : FS) : FS :=
  if rn.persistencePath = "" then fs
  else some ⟨rn.currentTerm, rn.votedFor, rn.log⟩

/-- Function `loadState` (raft.go): a no-op when no persistence path is set or
the file is absent; otherwise restores exactly the persisted triple. -/
def loadState (rn : RaftNode) (fs : FS) : RaftNode :=
  if rn.persistencePath = "" then rn
  else
    match fs with
    | none => rn
    | some st =>
        { rn with currentTerm := st.current_term, votedFor := st.voted_for,
                  log := st.log }

/-- The loop body of `applyCommitted` (raft.go): while
`lastApplied < commitIndex`, increment `lastApplied` and, when the new
index is within the bounds of the log and the entry's command is not
nil, dispatch the command to the apply callback.  `fuel` bounds the
iteration count; the caller supplies `(ci - la).toNat`, which is exact.
Returns the final `lastApplied` and the list of dispatched commands in
dispatch order. -/
def applyLoop (log : List LogEntry) : Nat → Int → Int → Int × List Cmd
  | 0, la, _ => (la, [])
  | fuel + 1, la, ci =>
    if la < ci then
      if 0 ≤ la + 1 ∧ la + 1 < (log.length : Int) then
        match log.get? (la + 1).toNat with
        | some e =>
          match e.command with
          | some c =>
            ((applyLoop log fuel (la + 1) ci).1,
             c :: (applyLoop log fuel (la + 1) ci).2)
          | none => applyLoop log fuel (la + 1) ci
        | none => applyLoop log fuel (la + 1) ci
      else applyLoop log fuel (la + 1) ci
    else (la, [])

/-- Function `applyCommitted` (raft.go): advance `lastApplied` to `commitIndex`,
dispatching each in-bounds committed entry with a non-nil command to
the apply callback.  Returns the updated node and the dispatched
commands. -/
def applyCommitted (rn : RaftNode) : RaftNode × List Cmd :=
  let r := applyLoop rn.log (rn.commitIndex - rn.lastApplied).toNat
    rn.lastApplied rn.commitIndex
  ({ rn with lastApplied := r.1 }, r.2)

/-- Result of `handleRequestVote`: the updated node and file, and the
`VOTE_RESPONSE` fields. -/
structure RVResult where
  node : RaftNode
  fs : FS
  term : Int
  voteGranted : Bool

/-- Handler `handleRequestVote` (raft.go).  If the message term exceeds
`currentTerm`: adopt it, clear `votedFor`, become follower, persist.
Grant the vote when `votedFor` is empty or already the candidate and
the message term is at least the (possibly just adopted) current term;
on grant set `votedFor` to the candidate and persist. -/
def handleRequestVote (rn : RaftNode) (fs : FS) (term : Int)
    (candidateID : String) : RVResult :=
  let step1 : RaftNode × FS :=
    if term > rn.currentTerm then
      let rn' := { rn with currentTerm := term, votedFor := "",
                           state := "follower" }
      (rn', saveState rn' fs)
    else (rn, fs)
  let rn₁ := step1.1
  let fs₁ := step1.2
  if (rn₁.votedFor = "" ∨ rn₁.votedFor = candidateID) ∧ term ≥ rn₁.currentTerm then
    let rn₂ := { rn₁ with votedFor := candidateID }
    ⟨rn₂, saveState rn₂ fs₁, rn₂.currentTerm, true⟩
  else
    ⟨rn₁, fs₁, rn₁.currentTerm, false⟩

/-- Parsing of the `leader_id` field in `handleAppendEntries`: only an
array of exactly two elements updates the leader hint; the elements
default through failed type assertions. -/
def parseLeader (j : JVal) (old : Option LeaderInfo) : Option LeaderInfo :=
  match j with
  | .arr [a, b] => some ⟨a.asString0, b.asNum0⟩
  | _ => old

/-- The term of one wire entry in `handleAppendEntries`: defaults to 0
when the `term` field is missing or not a number. -/
def entryTermOf (fields : Cmd) : Int :=
  match lookupField fields "term" with
  | some (.num n) => n
  | _ => 0

/-- The command of one wire entry: `nil` unless the `command` field is
present and is a JSON object. -/
def entryCommandOf (fields : Cmd) : Option Cmd :=
  match lookupField fields "command" with
  | some (.obj c) => some c
  | _ => none

/-- Parsing of one element of the `entries` array: a non-object element
is skipped entirely; an object element always becomes a log entry. -/
def parseWireEntry (j : JVal) : Option LogEntry :=
  match j with
  | .obj fields => some ⟨entryTermOf fields, entryCommandOf fields⟩
  | _ => none

/-- Result of `handleAppendEntries`: updated node and file, commands
handed to the apply engine, and the `APPEND_RESPONSE` fields. -/
structure AEResult where
  node : RaftNode
  fs : FS
  dispatched : List Cmd
  term : Int
  success : Bool

/-- The `leader_commit` field of an `APPEND_ENTRIES` message,
defaulting to -1 when missing or not a number. -/
def aeLeaderCommit (leaderCommitJ : JVal) : Int :=
  match leaderCommitJ with
  | .num n => n
  | _ => -1

/-- The entries appended by `handleAppendEntries`: the object elements
of the `entries` array (nothing when the field is not an array). -/
def aeEntries (entriesJ : JVal) : List LogEntry :=
  match entriesJ with
  | .arr xs => xs.filterMap parseWireEntry
  | _ => []

/-- The first half of the accepting branch of `handleAppendEntries`:
adopt the term, become follower, record the leader hint, append the
received entries to the tail of the log. -/
def aeAppend (rn : RaftNode) (term : Int) (leaderID entriesJ : JVal) : RaftNode :=
  { rn with currentTerm := term, state := "follower",
            leader := parseLeader leaderID rn.leader,
            log := rn.log ++ aeEntries entriesJ }

/-- The second half of the accepting branch: when
`leaderCommit > commitIndex`, advance `commitIndex` to
`min(leaderCommit, len(log)-1)` and run the apply loop. -/
def aeCommitApply (rn₂ : RaftNode) (leaderCommit : Int) : RaftNode × List Cmd :=
  if leaderCommit > rn₂.commitIndex then
    applyCommitted { rn₂ with
        commitIndex := min leaderCommit ((rn₂.log.length : Int) - 1) }
  else (rn₂, [])

/-- Handler `handleAppendEntries` (raft.go).  A stale term is rejected;
otherwise the node adopts the term, appends, commits up to the
leader's commit index, persists when the term advanced or entries were
appended, and responds success. -/
def handleAppendEntries (rn : RaftNode) (fs : FS) (term : Int)
    (leaderID : JVal) (entriesJ : JVal) (leaderCommitJ : JVal) : AEResult :=
  if term ≥ rn.currentTerm then
    let rn₂ := aeAppend rn term leaderID entriesJ
    let stepCommit := aeCommitApply rn₂ (aeLeaderCommit leaderCommitJ)
    let stateChanged := decide (term > rn.currentTerm) || !(aeEntries entriesJ).isEmpty
    let fs' := if stateChanged = true then saveState stepCommit.1 fs else fs
    ⟨stepCommit.1, fs', stepCommit.2, stepCommit.1.currentTerm, true⟩
  else
    ⟨rn, fs, [], rn.currentTerm, false⟩

/-- Result of `Replicate`: updated node and file, the returned boolean,
and the commands handed to the apply engine. -/
structure RepResult where
  node : RaftNode
  fs : FS
  ok : Bool
  dispatched : List Cmd

/-- Function `Replicate` (raft.go).  A non-leader returns false immediately with
nothing modified.  A leader appends `(currentTerm, command)` to its
log, persists, and counts acknowledgements: its own implicit one plus
`peerAcks` (the peers that answered success within the 5-second
window).  With a majority it sets `commitIndex` to the new entry's
index, runs the apply loop and returns true; otherwise false. -/
def Replicate (rn : RaftNode) (fs : FS) (command : Cmd)
    (peerAcks : Nat) : RepResult :=
  if rn.state = "leader" then
    let entry : LogEntry := ⟨rn.currentTerm, some command⟩
    let rn₁ := { rn with log := rn.log ++ [entry] }
    let fs₁ := saveState rn₁ fs
    let myIndex : Int := (rn₁.log.length : Int) - 1
    let acks := 1 + peerAcks
    let total := rn.peers.length + 1
    let majority := total / 2 + 1
    if acks ≥ majority then
      let r := applyCommitted { rn₁ with commitIndex := myIndex }
      ⟨r.1, fs₁, true, r.2⟩
    else
      ⟨rn₁, fs₁, false, []⟩
  else
    ⟨rn, fs, false, []⟩

/-- The first critical section of `Replicate` (raft.go up to the mutex
release after the append): on a leader, append `(currentTerm, command)`
to the log and capture the new entry's index `myIndex = len(log) - 1`.
The appended state is persisted by the same section. -/
def replicateAppendPhase (rn : RaftNode) (cmd : Cmd) : RaftNode × Int :=
  ({ rn with log := rn.log ++ [(⟨rn.currentTerm, some cmd⟩ : LogEntry)] },
   ((rn.log ++ [(⟨rn.currentTerm, some cmd⟩ : LogEntry)]).length : Int) - 1)

/-- The second critical section of `Replicate` (raft.go after the ACK
wait re-acquires the mutex): count the leader's implicit self-ACK plus
the captured peer ACKs against the majority; on a majority, set
`commitIndex := myIndex` unconditionally and run the apply loop.
Neither the role nor the current `commitIndex` is re-checked, and the
`myIndex` used is the one captured before the mutex was released. -/
def replicateCommitPhase (rn : RaftNode) (myIndex : Int)
    (peerAcks : Nat) : RaftNode × Bool × List Cmd :=
  if 1 + peerAcks ≥ (rn.peers.length + 1) / 2 + 1 then
    ((applyCommitted { rn with commitIndex := myIndex }).1, true,
     (applyCommitted { rn with commitIndex := myIndex }).2)
  else (rn, false, [])

/-- The state mutation at the top of `startElection` (raft.go):
become candidate, increment the term, vote for self, persist. -/
def startElectionBegin (rn : RaftNode) (fs : FS) : RaftNode × FS :=
  let rn' := { rn with state := "candidate",
                       currentTerm := rn.currentTerm + 1,
                       votedFor := rn.id }
  (rn', saveState rn' fs)

/-- The state mutation when a candidate wins its election
(`startElection`, raft.go): become leader and publish self as the
current leader. -/
def startElectionWin (rn : RaftNode) : RaftNode :=
  { rn with state := "leader",
            leader := some ⟨rn.host, rn.workerPort⟩ }

/-- One tick of `leaderLoop` (raft.go): while the node is leader,
`sendHeartbeats` dispatches an `APPEND_ENTRIES` to every peer; a
non-leader tick sends nothing and the loop exits. -/
def leaderLoopTick (rn : RaftNode) : Option (List Peer) :=
  if rn.state = "leader" then some rn.peers else none

/-- The result processing of `sendAppendEntries` (raft.go): the
response, `none` for an I/O failure or `some (term, success)`
otherwise, is reduced to the success boolean.  The node state is not
touched: the response term is never inspected. -/
def processAppendResponse (rn : RaftNode) (resp : Option (Int × Bool)) :
    RaftNode × Bool :=
  match resp with
  | some (_, success) => (rn, success)
  | none => (rn, false)

/-- One critical section of the consensus node, for the operations
that hold the mutex for their whole body.  RPC message contents,
acknowledgement counts and election outcomes are chosen by the
(unconstrained) environment.  `Replicate` is deliberately absent: the
code releases the mutex between its append and its commit sections, so
it appears split into two steps in the configuration-level machine
`CStep` below. -/
inductive Step : RaftNode → FS → RaftNode → FS → Prop
  | requestVote (rn : RaftNode) (fs : FS) (term : Int) (cid : String) :
      Step rn fs (handleRequestVote rn fs term cid).node
        (handleRequestVote rn fs term cid).fs
  | appendEntries (rn : RaftNode) (fs : FS) (term : Int)
      (lid ents lc : JVal) :
      Step rn fs (handleAppendEntries rn fs term lid ents lc).node
        (handleAppendEntries rn fs term lid ents lc).fs
  | electionBegin (rn : RaftNode) (fs : FS) :
      Step rn fs (startElectionBegin rn fs).1 (startElectionBegin rn fs).2
  | electionWin (rn : RaftNode) (fs : FS) :
      Step rn fs (startElectionWin rn) fs
  | applyStep (rn : RaftNode) (fs : FS) :
      Step rn fs (applyCommitted rn).1 fs

/-- Reachability of a node state: a node starts by loading any persisted
state (or none) into a freshly constructed node, then takes atomic
steps. -/
inductive Reachable : RaftNode → FS → Prop
  | init (id host : String) (port : Int) (peers : List Peer)
      (workerPort : Int) (path : String) (fs : FS) :
      Reachable (loadState (NewRaftNode id host port peers workerPort path) fs) fs
  | step {rn fs rn' fs'} :
      Reachable rn fs → Step rn fs rn' fs' → Reachable rn' fs'

/-- A configuration of the interleaving-aware machine: the node state,
the persisted file, and the captured `myIndex` of every `Replicate`
call that has executed its append section but not yet its commit
section (the mutex is released between the two in raft.go, so any
number of such calls can be outstanding at once). -/
structure Config where
  node : RaftNode
  fs : FS
  pending : List Int

/-- One critical section of the consensus node over configurations,
with `Replicate` split as in the code: `replicateBegin` is its append
section (leader check, append, persist, capture `myIndex`), and
`replicateFinish` is the commit section of one outstanding call,
resolved later with however many peer ACKs arrived.  Other
lock-holders may run between the two. -/
inductive CStep : Config → Config → Prop
  | requestVote (c : Config) (term : Int) (cid : String) :
      CStep c ⟨(handleRequestVote c.node c.fs term cid).node,
        (handleRequestVote c.node c.fs term cid).fs, c.pending⟩
  | appendEntries (c : Config) (term : Int) (lid ents lc : JVal) :
      CStep c ⟨(handleAppendEntries c.node c.fs term lid ents lc).node,
        (handleAppendEntries c.node c.fs term lid ents lc).fs, c.pending⟩
  | electionBegin (c : Config) :
      CStep c ⟨(startElectionBegin c.node c.fs).1,
        (startElectionBegin c.node c.fs).2, c.pending⟩
  | electionWin (c : Config) (h : c.node.state = "candidate") :
      CStep c ⟨startElectionWin c.node, c.fs, c.pending⟩
  | applyStep (c : Config) :
      CStep c ⟨(applyCommitted c.node).1, c.fs, c.pending⟩
  | replicateBegin (c : Config) (cmd : Cmd) (h : c.node.state = "leader") :
      CStep c ⟨(replicateAppendPhase c.node cmd).1,
        saveState (replicateAppendPhase c.node cmd).1 c.fs,
        (replicateAppendPhase c.node cmd).2 :: c.pending⟩
  | replicateFinish (c : Config) (idx : Int) (peerAcks : Nat)
      (h : idx ∈ c.pending) :
      CStep c ⟨(replicateCommitPhase c.node idx peerAcks).1, c.fs,
        c.pending.erase idx⟩

/-- Reachability of a configuration: load any persisted state (or
none) into a fresh node with no outstanding calls, then take critical
sections in any interleaved order. -/
inductive CReachable : Config → Prop
  | init (id host : String) (port : Int) (peers : List Peer)
      (workerPort : Int) (path : String) (fs : FS) :
      CReachable ⟨loadState (NewRaftNode id host port peers workerPort path) fs, fs, []⟩
  | step {c c2 : Config} : CReachable c → CStep c c2 → CReachable c2

/-- The value of one standard-base64 alphabet character
(`base64.StdEncoding`), or `none` for a character outside the
alphabet. -/
def b64Val (c : Char) : Option Nat :=
  if 'A' ≤ c ∧ c ≤ 'Z' then some (c.toNat - 65)
  else if 'a' ≤ c ∧ c ≤ 'z' then some (c.toNat - 97 + 26)
  else if '0' ≤ c ∧ c ≤ '9' then some (c.toNat - 48 + 52)
  else if c = '+' then some 62
  else if c = '/' then some 63
  else none

/-- Standard base64 decoding of a list of characters, group by group of
four, with `=` padding allowed only at the end
(`base64.StdEncoding.DecodeString`). -/
def b64DecodeGroups : List Char → Option (List Nat)
  | [] => some []
  | c1 :: c2 :: c3 :: c4 :: rest =>
    match b64Val c1, b64Val c2 with
    | some v1, some v2 =>
      if c3 = '=' then
        if c4 = '=' ∧ rest = [] then some [v1 * 4 + v2 / 16]
        else none
      else
        match b64Val c3 with
        | some v3 =>
          if c4 = '=' then
            if rest = [] then
              some [v1 * 4 + v2 / 16, (v2 % 16) * 16 + v3 / 4]
            else none
          else
            match b64Val c4 with
            | some v4 =>
              match b64DecodeGroups rest with
              | some tail =>
                some ([v1 * 4 + v2 / 16, (v2 % 16) * 16 + v3 / 4,
                       (v3 % 4) * 64 + v4] ++ tail)
              | none => none
            | none => none
        | none => none
    | _, _ => none
  | _ => none

/-- Decoding `base64.StdEncoding.DecodeString` on a string; bytes are natural
numbers below 256. -/
def base64Decode (s : String) : Option (List Nat) :=
  b64DecodeGroups s.toList

/-- Lexical path cleaning over components, as `filepath.Clean` performs
for the relative paths used here: empty and `.` components are
dropped, and a `..` removes the preceding component when one exists
(a leading `..` that cannot be resolved is kept).  `acc` holds the
already-cleaned components in reverse. -/
def cleanAux : List String → List String → List String
  | acc, [] => acc.reverse
  | acc, c :: rest =>
    if c = "" ∨ c = "." then cleanAux acc rest
    else if c = ".." then
      match acc with
      | [] => cleanAux [".."] rest
      | top :: accTail =>
        if top = ".." then cleanAux (".." :: acc) rest
        else cleanAux accTail rest
    else cleanAux (c :: acc) rest

/-- Splitting a character list on a separator character; `acc` holds
the current component in reverse. -/
def splitCharAux (sep : Char) : List Char → List Char → List String
  | [], acc => [String.mk acc.reverse]
  | c :: rest, acc =>
    if c = sep then String.mk acc.reverse :: splitCharAux sep rest []
    else splitCharAux sep rest (c :: acc)

/-- A path as its list of components (split on the separator). -/
def pathComponents (s : String) : List String :=
  splitCharAux '/' s.toList []

/-- Path join `filepath.Join(dir, file)`: concatenate the components and clean the
result lexically.  Note that a `..` component in `file` climbs out of
`dir`. -/
def joinPath (dir file : String) : List String :=
  cleanAux [] (pathComponents dir ++ pathComponents file)

/-- Whether a filename contains a path separator or a `..` component
(the condition the spec says the apply engine rejects). -/
def hasSepOrDotDot (s : String) : Bool :=
  decide ((pathComponents s).length > 1) || (pathComponents s).contains ".."

/-- A filesystem operation performed by the apply callback.  `write` is
a direct `os.WriteFile`; `renameOp` would be an `os.Rename`. -/
inductive FSOp where
  | write (path : List String) (data : List Nat)
  | renameOp (src dst : List String)
deriving DecidableEq

/-- Whether a filesystem operation is a plain write (not a rename). -/
def FSOp.isWrite : FSOp → Bool
  | .write _ _ => true
  | .renameOp _ _ => false

/-- The filesystem operations performed by the apply callback installed
in main.go for one committed command.  A command whose `action` is not
`STORE_FILE` is only logged; a `STORE_FILE` with empty filename or
data, or with invalid base64, is logged and performs no write;
otherwise the decoded bytes are written directly (one `os.WriteFile`)
to `filepath.Join(modelsDir, filename)`. -/
def applyCallbackOps (modelsDir : String) (cmd : Cmd) : List FSOp :=
  let action := (lookupField cmd "action").getD .null
  if action.asString0 = "STORE_FILE" then
    let filename := ((lookupField cmd "filename").getD .null).asString0
    let dataB64 := ((lookupField cmd "data_b64").getD .null).asString0
    if filename = "" ∨ dataB64 = "" then []
    else
      match base64Decode dataB64 with
      | none => []
      | some data => [.write (joinPath modelsDir filename) data]
  else []

/-- The response the TCP request layer sends for a `TRAIN` request, and
whether the node proceeded into the training-and-replication path. -/
inductive TrainResp where
  | errorMsg (message : String)
  | redirect (host : String) (port : Int)
  | proceed
deriving DecidableEq

/-- The admission logic of `handleTrain` (main.go): requests with empty
`inputs` or `outputs` are answered with an error before anything else;
then a non-leader answers with a redirect to the known leader or, when
none is known, with a no-leader error; only a leader proceeds to
training and replication. -/
def handleTrain (isLeader : Bool) (leader : Option LeaderInfo)
    (inputs outputs : List JVal) : TrainResp :=
  if inputs.length = 0 ∨ outputs.length = 0 then
    .errorMsg "Missing inputs or outputs"
  else if !isLeader then
    match leader with
    | some l => .redirect l.host l.workerPort
    | none => .errorMsg "No leader available"
  else
    .proceed

/-- Whether a `TRAIN` outcome entered the training/replication path. -/
def TrainResp.trains : TrainResp → Bool
  | .proceed => true
  | _ => false

/-- The invariant relating the apply cursor, the commit cursor and the
log length on one node. -/
def commitInv (rn : RaftNode) : Prop :=
  rn.lastApplied ≤ rn.commitIndex ∧ rn.commitIndex ≤ (rn.log.length : Int) - 1

/-- A concrete node used to instantiate theorems: a fresh node with the
persistent and role fields overridden. -/
def mkNode (term : Int) (vf : String) (log : List LogEntry) (ci la : Int)
    (st : String) (peers : List Peer) : RaftNode :=
  { NewRaftNode "n1" "h" 10000 peers 9000 "dir" with
      currentTerm := term, votedFor := vf, log := log,
      commitIndex := ci, lastApplied := la, state := st }

/-- A `STORE_FILE` command record as built by the surrounding
application. -/
def storeCmd (fn b64 : String) : Cmd :=
  [("action", .str "STORE_FILE"), ("filename", .str fn),
   ("data_b64", .str b64)]

/-- A committed `STORE_FILE` command whose filename climbs out of the
model directory. -/
def evilCmd : Cmd := storeCmd "../evil.bin" "QUJD"

/-- A freshly started node (no persisted file on disk). -/
def cxNode0 : RaftNode := loadState (NewRaftNode "n1" "h" 10000 [] 9000 "dir") none

/-- The node after granting a vote to candidate `A` in term 1. -/
def cxNode1 : RaftNode := (handleRequestVote cxNode0 none 1 "A").node

/-- The state file after granting a vote to candidate `A` in term 1. -/
def cxFs1 : FS := (handleRequestVote cxNode0 none 1 "A").fs

/-- The node after subsequently receiving an `APPEND_ENTRIES` carrying
term 2. -/
def cxNode2 : RaftNode := (handleAppendEntries cxNode1 cxFs1 2 .null .null .null).node

/-- The state file after the term-2 `APPEND_ENTRIES`. -/
def cxFs2 : FS := (handleAppendEntries cxNode1 cxFs1 2 .null .null .null).fs

/-- The bounds that survive interleaved replication: both cursors stay
within the log, and every captured pending index is a valid log
index. -/
def logBoundsInv (c : Config) : Prop :=
  c.node.lastApplied ≤ (c.node.log.length : Int) - 1
  ∧ c.node.commitIndex ≤ (c.node.log.length : Int) - 1
  ∧ ∀ i ∈ c.pending, 0 ≤ i ∧ i ≤ (c.node.log.length : Int) - 1

/-- Interleaving trace, step 0: a freshly started single-node cluster
(no peers, so the majority is 1 and every commit section succeeds). -/
def cx4a : Config :=
  ⟨loadState (NewRaftNode "n1" "h" 10000 [] 9000 "dir") none, none, []⟩

/-- Step 1: the election timer fires — candidate at term 1. -/
def cx4b : Config :=
  ⟨(startElectionBegin cx4a.node cx4a.fs).1,
   (startElectionBegin cx4a.node cx4a.fs).2, cx4a.pending⟩

/-- Step 2: the candidate wins (its self-vote is the majority). -/
def cx4c : Config := ⟨startElectionWin cx4b.node, cx4b.fs, cx4b.pending⟩

/-- Step 3: a first `Replicate` call appends entry 0 (capturing
`myIndex = 0`) and releases the mutex. -/
def cx4d : Config :=
  ⟨(replicateAppendPhase cx4c.node [("k", JVal.num 1)]).1,
   saveState (replicateAppendPhase cx4c.node [("k", JVal.num 1)]).1 cx4c.fs,
   (replicateAppendPhase cx4c.node [("k", JVal.num 1)]).2 :: cx4c.pending⟩

/-- Step 4: a second, overlapping `Replicate` call appends entry 1
(capturing `myIndex = 1`) and releases the mutex. -/
def cx4e : Config :=
  ⟨(replicateAppendPhase cx4d.node [("k", JVal.num 2)]).1,
   saveState (replicateAppendPhase cx4d.node [("k", JVal.num 2)]).1 cx4d.fs,
   (replicateAppendPhase cx4d.node [("k", JVal.num 2)]).2 :: cx4d.pending⟩

/-- Step 5: the second call's commit section runs first —
`commitIndex := 1` and the apply loop drives `lastApplied` to 1. -/
def cx4f : Config :=
  ⟨(replicateCommitPhase cx4e.node 1 0).1, cx4e.fs, cx4e.pending.erase 1⟩

/-- Step 6: the first call's commit section then runs and sets
`commitIndex := 0` unconditionally — below `lastApplied = 1`. -/
def cx4g : Config :=
  ⟨(replicateCommitPhase cx4f.node 0 0).1, cx4f.fs, cx4f.pending.erase 0⟩

/-- The apply loop leaves every field of the node except `lastApplied`
untouched. -/
theorem applyCommitted_proj (rn : RaftNode) :
    (applyCommitted rn).1.commitIndex = rn.commitIndex
    ∧ (applyCommitted rn).1.log = rn.log
    ∧ (applyCommitted rn).1.currentTerm = rn.currentTerm
    ∧ (applyCommitted rn).1.votedFor = rn.votedFor
    ∧ (applyCommitted rn).1.state = rn.state :=
  ⟨rfl, rfl, rfl, rfl, rfl⟩

/-- With exact fuel, the apply loop drives the cursor up to the commit
index (and never moves it backwards). -/
theorem applyLoop_fst (log : List LogEntry) (fuel : Nat) :
    ∀ la ci : Int, (ci - la).toNat = fuel →
      (applyLoop log fuel la ci).1 = max la ci := by
  induction fuel with
  | zero =>
    intro la ci h
    have hle : ci ≤ la := by omega
    simp [applyLoop, max_eq_left hle]
  | succ fuel ih =>
    intro la ci h
    have hlt : la < ci := by omega
    have hIH := ih (la + 1) ci (by omega)
    have hm : max (la + 1) ci = ci := max_eq_right (by omega)
    have hm2 : max la ci = ci := max_eq_right (by omega)
    rw [hm] at hIH
    simp only [applyLoop, if_pos hlt, hm2]
    split
    · split
      · split
        · exact hIH
        · exact hIH
      · exact hIH
    · exact hIH

/-- Every command the apply loop dispatches is the (non-nil) command of
an entry of the log. -/
theorem applyLoop_snd_mem (log : List LogEntry) (fuel : Nat) :
    ∀ la ci : Int, ∀ c ∈ (applyLoop log fuel la ci).2,
      ∃ e ∈ log, e.command = some c := by
  induction fuel with
  | zero =>
    intro la ci c hc
    simp [applyLoop] at hc
  | succ fuel ih =>
    intro la ci c hc
    by_cases hlt : la < ci
    · simp only [applyLoop, if_pos hlt] at hc
      split at hc
      · split at hc
        next e hget =>
          split at hc
          next c0 hcmd =>
            rcases List.mem_cons.mp hc with hhead | htail
            · exact ⟨e, List.get?_mem hget, by rw [hcmd, hhead]⟩
            · exact ih (la + 1) ci c htail
          next hcmd => exact ih (la + 1) ci c hc
        next hget => exact ih (la + 1) ci c hc
      · exact ih (la + 1) ci c hc
    · simp [applyLoop, if_neg hlt] at hc

/-- The apply engine advances `lastApplied` exactly to `commitIndex`
(when behind; otherwise it stays put). -/
theorem applyCommitted_lastApplied (rn : RaftNode) :
    (applyCommitted rn).1.lastApplied = max rn.lastApplied rn.commitIndex :=
  applyLoop_fst rn.log _ rn.lastApplied rn.commitIndex rfl

/-- C8: persistence round-trips — for every node state with a
persistence path configured, loading after saving restores exactly the
triple `(currentTerm, votedFor, log)` into any node, and loading when
the state file is absent leaves a freshly constructed node in its
initial state `{term: 0, votedFor: "", log: []}`. -/
theorem persistence_roundtrip (rn rn₀ : RaftNode) (fs : FS)
    (id host path : String) (port workerPort : Int) (peers : List Peer)
    (h : rn.persistencePath ≠ "") (h₀ : rn₀.persistencePath ≠ "") :
    ((loadState rn₀ (saveState rn fs)).currentTerm = rn.currentTerm
      ∧ (loadState rn₀ (saveState rn fs)).votedFor = rn.votedFor
      ∧ (loadState rn₀ (saveState rn fs)).log = rn.log)
    ∧ loadState (NewRaftNode id host port peers workerPort path) none
        = NewRaftNode id host port peers workerPort path
    ∧ (NewRaftNode id host port peers workerPort path).currentTerm = 0
    ∧ (NewRaftNode id host port peers workerPort path).votedFor = ""
    ∧ (NewRaftNode id host port peers workerPort path).log = [] := by
  refine ⟨?_, ?_, rfl, rfl, rfl⟩
  · simp [loadState, saveState, h, h₀]
  · simp only [loadState]
    split
    · rfl
    · rfl

/-- C8 witness: a concrete node with term 7, vote `x` and a one-entry
log survives a save/load cycle. -/
theorem persistence_roundtrip_witness :
    (loadState (mkNode 0 "" [] (-1) (-1) "follower" [])
        (saveState (mkNode 7 "x" [⟨3, none⟩] (-1) (-1) "follower" []) none)).currentTerm = 7
    ∧ (loadState (mkNode 0 "" [] (-1) (-1) "follower" [])
        (saveState (mkNode 7 "x" [⟨3, none⟩] (-1) (-1) "follower" []) none)).votedFor = "x" := by
  have h := persistence_roundtrip (mkNode 7 "x" [⟨3, none⟩] (-1) (-1) "follower" [])
    (mkNode 0 "" [] (-1) (-1) "follower" []) none "a" "b" "c" 1 2 []
    (by decide) (by decide)
  exact ⟨h.1.1, h.1.2.1⟩

/-- Branch equation for `handleRequestVote` when the message term is
strictly higher: adopt, clear, then (necessarily) grant. -/
theorem handleRequestVote_gt (rn : RaftNode) (fs : FS) (term : Int)
    (cid : String) (hgt : term > rn.currentTerm) :
    handleRequestVote rn fs term cid =
      ⟨{ rn with currentTerm := term, votedFor := cid, state := "follower" },
       saveState { rn with currentTerm := term, votedFor := cid, state := "follower" }
         (saveState { rn with currentTerm := term, votedFor := "", state := "follower" } fs),
       term, true⟩ := by
  simp only [handleRequestVote, if_pos hgt]
  split
  · rfl
  · next hc => exact absurd (by simp) hc

/-- Branch equation for `handleRequestVote` when the term is not higher
and the grant condition holds. -/
theorem handleRequestVote_le_grant (rn : RaftNode) (fs : FS) (term : Int)
    (cid : String) (hgt : ¬ term > rn.currentTerm)
    (hcond : (rn.votedFor = "" ∨ rn.votedFor = cid) ∧ term ≥ rn.currentTerm) :
    handleRequestVote rn fs term cid =
      ⟨{ rn with votedFor := cid }, saveState { rn with votedFor := cid } fs,
       rn.currentTerm, true⟩ := by
  simp only [handleRequestVote, if_neg hgt]
  rw [if_pos hcond]

/-- Branch equation for `handleRequestVote` when the vote is denied:
nothing changes. -/
theorem handleRequestVote_reject (rn : RaftNode) (fs : FS) (term : Int)
    (cid : String) (hgt : ¬ term > rn.currentTerm)
    (hcond : ¬ ((rn.votedFor = "" ∨ rn.votedFor = cid) ∧ term ≥ rn.currentTerm)) :
    handleRequestVote rn fs term cid = ⟨rn, fs, rn.currentTerm, false⟩ := by
  simp only [handleRequestVote, if_neg hgt]
  rw [if_neg hcond]

/-- The vote handler never touches the log, the commit index, the apply
cursor, the peer list or the persistence path. -/
theorem handleRequestVote_volatile (rn : RaftNode) (fs : FS) (term : Int)
    (cid : String) :
    (handleRequestVote rn fs term cid).node.log = rn.log
    ∧ (handleRequestVote rn fs term cid).node.commitIndex = rn.commitIndex
    ∧ (handleRequestVote rn fs term cid).node.lastApplied = rn.lastApplied := by
  by_cases hgt : term > rn.currentTerm
  · rw [handleRequestVote_gt rn fs term cid hgt]
    exact ⟨rfl, rfl, rfl⟩
  · by_cases hcond : (rn.votedFor = "" ∨ rn.votedFor = cid) ∧ term ≥ rn.currentTerm
    · rw [handleRequestVote_le_grant rn fs term cid hgt hcond]
      exact ⟨rfl, rfl, rfl⟩
    · rw [handleRequestVote_reject rn fs term cid hgt hcond]
      exact ⟨rfl, rfl, rfl⟩

/-- C2: a `REQUEST_VOTE(term, candidateId)` is granted exactly when
`term ≥ currentTerm` and — after the adoption step that a strictly
higher term triggers (adopt the term, clear `votedFor`) — `votedFor`
is empty or already the candidate; on grant `votedFor` becomes the
candidate and the state is persisted before responding. -/
theorem requestVote_spec (rn : RaftNode) (fs : FS) (term : Int) (cid : String) :
    ((handleRequestVote rn fs term cid).voteGranted = true ↔
       term ≥ rn.currentTerm
         ∧ (term > rn.currentTerm ∨ rn.votedFor = "" ∨ rn.votedFor = cid))
    ∧ (handleRequestVote rn fs term cid).node.currentTerm = max rn.currentTerm term
    ∧ ((handleRequestVote rn fs term cid).voteGranted = true →
        (handleRequestVote rn fs term cid).node.votedFor = cid
        ∧ (rn.persistencePath ≠ "" →
            (handleRequestVote rn fs term cid).fs =
              some ⟨(handleRequestVote rn fs term cid).node.currentTerm, cid, rn.log⟩)) := by
  by_cases hgt : term > rn.currentTerm
  · rw [handleRequestVote_gt rn fs term cid hgt]
    refine ⟨iff_of_true rfl ⟨le_of_lt hgt, Or.inl hgt⟩,
      (max_eq_right (le_of_lt hgt)).symm, fun _ => ⟨rfl, fun hp => ?_⟩⟩
    simp [saveState, hp]
  · by_cases hcond : (rn.votedFor = "" ∨ rn.votedFor = cid) ∧ term ≥ rn.currentTerm
    · have hmax : max rn.currentTerm term = rn.currentTerm :=
        max_eq_left (not_lt.mp hgt)
      rw [handleRequestVote_le_grant rn fs term cid hgt hcond]
      refine ⟨iff_of_true rfl ⟨hcond.2, Or.inr hcond.1⟩,
        hmax.symm, fun _ => ⟨rfl, fun hp => ?_⟩⟩
      simp [saveState, hp]
    · have hmax : max rn.currentTerm term = rn.currentTerm :=
        max_eq_left (not_lt.mp hgt)
      rw [handleRequestVote_reject rn fs term cid hgt hcond]
      exact ⟨iff_of_false (by simp)
        (fun hrhs => hcond ⟨hrhs.2.resolve_left hgt, hrhs.1⟩),
        hmax.symm, by simp⟩

/-- C2 witness: a fresh follower at term 0 grants a vote for term 1 to
candidate `A`, records the vote and persists it. -/
theorem requestVote_spec_witness :
    (handleRequestVote (mkNode 0 "" [] (-1) (-1) "follower" []) none 1 "A").voteGranted = true
    ∧ (handleRequestVote (mkNode 0 "" [] (-1) (-1) "follower" []) none 1 "A").node.votedFor = "A" := by
  have h := requestVote_spec (mkNode 0 "" [] (-1) (-1) "follower" []) none 1 "A"
  have hg : (handleRequestVote (mkNode 0 "" [] (-1) (-1) "follower" []) none 1 "A").voteGranted = true :=
    h.1.mpr (by constructor <;> decide)
  exact ⟨hg, (h.2.2 hg).1⟩

/-- Branch equation for `Replicate` on a non-leader: nothing happens. -/
theorem Replicate_notLeader (rn : RaftNode) (fs : FS) (cmd : Cmd)
    (peerAcks : Nat) (h : rn.state ≠ "leader") :
    Replicate rn fs cmd peerAcks = ⟨rn, fs, false, []⟩ := by
  simp only [Replicate, if_neg h]

/-- Branch equation for `Replicate` on a leader that gathers a
majority: append, persist, commit at the new index, apply. -/
theorem Replicate_leader_commit (rn : RaftNode) (fs : FS) (cmd : Cmd)
    (peerAcks : Nat) (h : rn.state = "leader")
    (hmaj : 1 + peerAcks ≥ (rn.peers.length + 1) / 2 + 1) :
    Replicate rn fs cmd peerAcks =
      ⟨(applyCommitted { rn with log := rn.log ++ [(⟨rn.currentTerm, some cmd⟩ : LogEntry)], commitIndex := ((rn.log ++ [(⟨rn.currentTerm, some cmd⟩ : LogEntry)]).length : Int) - 1 }).1,
       saveState { rn with log := rn.log ++ [(⟨rn.currentTerm, some cmd⟩ : LogEntry)] } fs,
       true,
       (applyCommitted { rn with log := rn.log ++ [(⟨rn.currentTerm, some cmd⟩ : LogEntry)], commitIndex := ((rn.log ++ [(⟨rn.currentTerm, some cmd⟩ : LogEntry)]).length : Int) - 1 }).2⟩ := by
  simp only [Replicate, if_pos h]
  rw [if_pos hmaj]

/-- Branch equation for `Replicate` on a leader that misses the
majority: append and persist, but no commit and no apply. -/
theorem Replicate_leader_nomaj (rn : RaftNode) (fs : FS) (cmd : Cmd)
    (peerAcks : Nat) (h : rn.state = "leader")
    (hmaj : ¬ 1 + peerAcks ≥ (rn.peers.length + 1) / 2 + 1) :
    Replicate rn fs cmd peerAcks =
      ⟨{ rn with log := rn.log ++ [(⟨rn.currentTerm, some cmd⟩ : LogEntry)] },
       saveState { rn with log := rn.log ++ [(⟨rn.currentTerm, some cmd⟩ : LogEntry)] } fs,
       false, []⟩ := by
  simp only [Replicate, if_pos h]
  rw [if_neg hmaj]

/-- The fused `Replicate` is exactly its append section followed
immediately by its commit section — the uninterleaved schedule of the
two critical sections. -/
theorem Replicate_eq_phases (rn : RaftNode) (fs : FS) (cmd : Cmd)
    (peerAcks : Nat) (h : rn.state = "leader") :
    Replicate rn fs cmd peerAcks =
      ⟨(replicateCommitPhase (replicateAppendPhase rn cmd).1
          (replicateAppendPhase rn cmd).2 peerAcks).1,
       saveState (replicateAppendPhase rn cmd).1 fs,
       (replicateCommitPhase (replicateAppendPhase rn cmd).1
          (replicateAppendPhase rn cmd).2 peerAcks).2.1,
       (replicateCommitPhase (replicateAppendPhase rn cmd).1
          (replicateAppendPhase rn cmd).2 peerAcks).2.2⟩ := by
  by_cases hmaj : 1 + peerAcks ≥ (rn.peers.length + 1) / 2 + 1
  · rw [Replicate_leader_commit rn fs cmd peerAcks h hmaj]
    simp only [replicateAppendPhase, replicateCommitPhase]
    rw [if_pos hmaj]
  · rw [Replicate_leader_nomaj rn fs cmd peerAcks h hmaj]
    simp only [replicateAppendPhase, replicateCommitPhase]
    rw [if_neg hmaj]

/-- C1: `Replicate(command)` returns false without modifying anything
when the node is not the leader; on the leader it appends
`(currentTerm, command)`, persists the new log, and returns true
exactly when the acknowledgement count (the leader's implicit self-ACK
plus the peer ACKs) reaches the majority `⌊N/2⌋+1` of
`N = peers + 1` — in which case `commitIndex` becomes the new entry's
index and the apply engine runs; otherwise `commitIndex`,
`lastApplied` stay put and nothing is dispatched. -/
theorem replicate_spec (rn : RaftNode) (fs : FS) (cmd : Cmd) (peerAcks : Nat) :
    (rn.state ≠ "leader" → Replicate rn fs cmd peerAcks = ⟨rn, fs, false, []⟩)
    ∧ (rn.state = "leader" →
        (Replicate rn fs cmd peerAcks).node.log
          = rn.log ++ [(⟨rn.currentTerm, some cmd⟩ : LogEntry)]
        ∧ (rn.persistencePath ≠ "" →
            (Replicate rn fs cmd peerAcks).fs =
              some ⟨rn.currentTerm, rn.votedFor,
                    rn.log ++ [(⟨rn.currentTerm, some cmd⟩ : LogEntry)]⟩)
        ∧ ((Replicate rn fs cmd peerAcks).ok = true ↔
            1 + peerAcks ≥ (rn.peers.length + 1) / 2 + 1)
        ∧ ((Replicate rn fs cmd peerAcks).ok = true →
            (Replicate rn fs cmd peerAcks).node.commitIndex = (rn.log.length : Int)
            ∧ (Replicate rn fs cmd peerAcks).node.lastApplied =
                max rn.lastApplied (rn.log.length : Int))
        ∧ ((Replicate rn fs cmd peerAcks).ok = false →
            (Replicate rn fs cmd peerAcks).node.commitIndex = rn.commitIndex
            ∧ (Replicate rn fs cmd peerAcks).node.lastApplied = rn.lastApplied
            ∧ (Replicate rn fs cmd peerAcks).dispatched = [])) := by
  have hlen : (((rn.log ++ [(⟨rn.currentTerm, some cmd⟩ : LogEntry)]).length : Int) - 1)
      = (rn.log.length : Int) := by
    simp
  refine ⟨fun h => Replicate_notLeader rn fs cmd peerAcks h, fun h => ?_⟩
  by_cases hmaj : 1 + peerAcks ≥ (rn.peers.length + 1) / 2 + 1
  · rw [Replicate_leader_commit rn fs cmd peerAcks h hmaj]
    refine ⟨(applyCommitted_proj _).2.1, fun hp => by simp [saveState, hp],
      iff_of_true rfl hmaj, fun _ => ⟨?_, ?_⟩, fun hok => by simp at hok⟩
    · rw [(applyCommitted_proj _).1]
      exact hlen
    · rw [applyCommitted_lastApplied]
      rw [hlen]
  · rw [Replicate_leader_nomaj rn fs cmd peerAcks h hmaj]
    exact ⟨rfl, fun hp => by simp [saveState, hp],
      iff_of_false (by simp) hmaj, fun hok => by simp at hok,
      fun _ => ⟨rfl, rfl, rfl⟩⟩

/-- C1 witness: a two-peer leader at term 3 with one peer ACK (2 of 3
ACKs in total) commits its first entry at index 0. -/
theorem replicate_spec_witness :
    (Replicate (mkNode 3 "" [] (-1) (-1) "leader" [⟨"p1", 1⟩, ⟨"p2", 2⟩])
        none [("k", .str "v")] 1).ok = true
    ∧ (Replicate (mkNode 3 "" [] (-1) (-1) "leader" [⟨"p1", 1⟩, ⟨"p2", 2⟩])
        none [("k", .str "v")] 1).node.commitIndex = 0 := by
  have h := (replicate_spec (mkNode 3 "" [] (-1) (-1) "leader" [⟨"p1", 1⟩, ⟨"p2", 2⟩])
    none [("k", .str "v")] 1).2 rfl
  have hok := h.2.2.1.mpr (by decide)
  exact ⟨hok, (h.2.2.2.1 hok).1⟩

/-- C5 (amended part): the heartbeat machinery as coded — the interval
is 1000 ms, every tick while leader fans out to every peer, and the
response processing of `sendAppendEntries` only extracts the success
flag, leaving the node state untouched whatever term the response
carries. -/
theorem heartbeat_loop_spec (id host : String) (port : Int)
    (peers : List Peer) (wp : Int) (path : String) (rn : RaftNode)
    (resp : Option (Int × Bool)) :
    (NewRaftNode id host port peers wp path).heartbeatIntervalMs = 1000
    ∧ (rn.state = "leader" → leaderLoopTick rn = some rn.peers)
    ∧ (rn.state ≠ "leader" → leaderLoopTick rn = none)
    ∧ (processAppendResponse rn resp).1 = rn := by
  refine ⟨rfl, fun h => ?_, fun h => ?_, ?_⟩
  · simp [leaderLoopTick, h]
  · simp [leaderLoopTick, h]
  · rcases resp with _ | ⟨t, s⟩ <;> rfl

/-- C5 witness: a concrete leader with one peer heartbeats that peer. -/
theorem heartbeat_loop_spec_witness :
    leaderLoopTick (mkNode 1 "" [] (-1) (-1) "leader" [⟨"p1", 1⟩])
      = some [⟨"p1", 1⟩] := by
  have h := heartbeat_loop_spec "i" "h" 1 [] 2 "d"
    (mkNode 1 "" [] (-1) (-1) "leader" [⟨"p1", 1⟩]) none
  exact h.2.1 rfl

/-- C5 counterexample: a heartbeat response carrying term 5 arrives at
a leader whose term is 1, and the leader does not step down — the
state after processing the response is unchanged, still leader at
term 1. -/
theorem heartbeat_stepdown_counterexample :
    (5 : Int) > (mkNode 1 "" [] (-1) (-1) "leader" []).currentTerm
    ∧ (processAppendResponse (mkNode 1 "" [] (-1) (-1) "leader" [])
        (some (5, false))).1 = mkNode 1 "" [] (-1) (-1) "leader" []
    ∧ (processAppendResponse (mkNode 1 "" [] (-1) (-1) "leader" [])
        (some (5, false))).1.state = "leader"
    ∧ (processAppendResponse (mkNode 1 "" [] (-1) (-1) "leader" [])
        (some (5, false))).1.currentTerm = 1 :=
  ⟨by decide, rfl, rfl, rfl⟩

/-- Branch equation for the apply callback on a well-formed
`STORE_FILE` command: one direct write of the decoded bytes at the
joined path, whatever the filename contains. -/
theorem applyCallbackOps_store (dir fn b64 : String) (data : List Nat)
    (hfn : fn ≠ "") (hb64 : b64 ≠ "") (hd : base64Decode b64 = some data) :
    applyCallbackOps dir (storeCmd fn b64)
      = [FSOp.write (joinPath dir fn) data] := by
  simp only [applyCallbackOps, storeCmd, lookupField, JVal.asString0]
  simp [hfn, hb64, hd]

/-- C6 (amended): the apply engine performs no basename check — a
committed `STORE_FILE` whose filename contains a separator or a `..`
component is not rejected: its bytes are written at the lexically
cleaned join of the model directory and the filename (which can lie
outside the model directory). -/
theorem store_file_no_basename_check (dir fn b64 : String) (data : List Nat)
    (_hsep : hasSepOrDotDot fn = true) (hfn : fn ≠ "") (hb64 : b64 ≠ "")
    (hd : base64Decode b64 = some data) :
    applyCallbackOps dir (storeCmd fn b64)
      = [FSOp.write (joinPath dir fn) data] :=
  applyCallbackOps_store dir fn b64 data hfn hb64 hd

/-- C6 witness: the filename `a/b.bin` contains a separator and is
still written, under `models/a/b.bin`. -/
theorem store_file_no_basename_check_witness :
    applyCallbackOps "models" (storeCmd "a/b.bin" "QQ==")
      = [FSOp.write ["models", "a", "b.bin"] [65]] := by
  have h := store_file_no_basename_check "models" "a/b.bin" "QQ==" [65]
    (by decide) (by decide) (by decide) (by decide)
  exact h

/-- C6 counterexample: the committed command
`{action: STORE_FILE, filename: "../evil.bin", data_b64: "QUJD"}` has a
filename with a separator and a `..` component, yet the engine does not
reject it — it writes the bytes `ABC` at `evil.bin`, outside the
`models` directory. -/
theorem store_file_traversal_counterexample :
    hasSepOrDotDot "../evil.bin" = true
    ∧ applyCallbackOps "models" evilCmd
        = [FSOp.write ["evil.bin"] [65, 66, 67]]
    ∧ (joinPath "models" "../evil.bin").head? ≠ some "models" := by
  exact ⟨by decide, by decide, by decide⟩

/-- C7 (amended): applying a well-formed `STORE_FILE` decodes
`data_b64` as standard base64 and performs exactly one direct write of
the decoded bytes to `Join(modelsDir, filename)`; the callback never
performs a rename, so no temporary-sibling-and-rename scheme is
involved. -/
theorem store_file_direct_write (dir : String) (cmd : Cmd)
    (fn b64 : String) (data : List Nat)
    (hfn : fn ≠ "") (hb64 : b64 ≠ "") (hd : base64Decode b64 = some data) :
    (∀ op ∈ applyCallbackOps dir cmd, op.isWrite = true)
    ∧ applyCallbackOps dir (storeCmd fn b64)
        = [FSOp.write (joinPath dir fn) data] := by
  refine ⟨fun op hop => ?_, applyCallbackOps_store dir fn b64 data hfn hb64 hd⟩
  simp only [applyCallbackOps] at hop
  split at hop
  · split at hop
    · simp at hop
    · split at hop
      · simp at hop
      · rw [List.mem_singleton] at hop
        rw [hop]
        rfl
  · simp at hop

/-- C7 witness: storing `m1.bin` with payload `aGVsbG8=` produces the
single direct write of `hello` at `models/m1.bin`. -/
theorem store_file_direct_write_witness :
    applyCallbackOps "models" (storeCmd "m1.bin" "aGVsbG8=")
      = [FSOp.write ["models", "m1.bin"] [104, 101, 108, 108, 111]] := by
  have h := store_file_direct_write "models" [] "m1.bin" "aGVsbG8="
    [104, 101, 108, 108, 111] (by decide) (by decide) (by decide)
  exact h.2

/-- C7 counterexample: for the concrete committed command
`{action: STORE_FILE, filename: "x.bin", data_b64: "QUJDRA=="}` the
callback performs exactly one operation, a direct write — there is no
write to a temporary sibling and no rename. -/
theorem store_file_not_atomic_counterexample :
    applyCallbackOps "models" (storeCmd "x.bin" "QUJDRA==")
      = [FSOp.write ["models", "x.bin"] [65, 66, 67, 68]]
    ∧ (applyCallbackOps "models" (storeCmd "x.bin" "QUJDRA==")).all
        FSOp.isWrite = true
    ∧ (applyCallbackOps "models" (storeCmd "x.bin" "QUJDRA==")).length = 1 := by
  exact ⟨by decide, by decide, by decide⟩

/-- C9 (amended): a `TRAIN` request with nonempty inputs and outputs on
a non-leader is answered with a redirect to the known leader or a
no-leader error and never enters training or replication; a request
with empty inputs or outputs is answered with a missing-data error
before the leader check. -/
theorem handleTrain_admission (isL : Bool) (ldr : Option LeaderInfo)
    (l : LeaderInfo) (ins outs : List JVal) :
    (ins.length = 0 ∨ outs.length = 0 →
        handleTrain isL ldr ins outs = .errorMsg "Missing inputs or outputs")
    ∧ (ins.length ≠ 0 → outs.length ≠ 0 → isL = false →
        (ldr = some l → handleTrain isL ldr ins outs = .redirect l.host l.workerPort)
        ∧ (ldr = none → handleTrain isL ldr ins outs = .errorMsg "No leader available"))
    ∧ (isL = false → (handleTrain isL ldr ins outs).trains = false) := by
  refine ⟨fun h => ?_, fun h1 h2 h3 => ⟨fun hl => ?_, fun hl => ?_⟩, fun h => ?_⟩
  · simp only [handleTrain]
    rw [if_pos h]
  · simp [handleTrain, h1, h2, h3, hl]
  · simp [handleTrain, h1, h2, h3, hl]
  · by_cases hv : ins.length = 0 ∨ outs.length = 0
    · simp only [handleTrain]
      rw [if_pos hv]
      rfl
    · simp only [handleTrain]
      rw [if_neg hv, h]
      rcases ldr with _ | l₀ <;> rfl

/-- C9 witness: a valid request on a non-leader that knows the leader
is redirected to `(h2, 9001)`. -/
theorem handleTrain_admission_witness :
    handleTrain false (some ⟨"h2", 9001⟩) [.num 1] [.num 2]
      = .redirect "h2" 9001 := by
  have h := handleTrain_admission false (some ⟨"h2", 9001⟩) ⟨"h2", 9001⟩
    [.num 1] [.num 2]
  exact (h.2.1 (by decide) (by decide) rfl).1 rfl

/-- C9 counterexample: a `TRAIN` request with empty inputs arriving at
a non-leader that knows the leader is answered with the missing-data
error, not with the redirect envelope the claim requires for every
request on a non-leader. -/
theorem train_validation_first_counterexample :
    handleTrain false (some ⟨"h2", 9001⟩) [] [.num 1]
      = .errorMsg "Missing inputs or outputs"
    ∧ handleTrain false (some ⟨"h2", 9001⟩) [] [.num 1]
        ≠ .redirect "h2" 9001 := by
  exact ⟨by decide, by decide⟩

/-- Branch equation for `handleAppendEntries` when the message term is
current or newer. -/
theorem handleAppendEntries_ge (rn : RaftNode) (fs : FS) (term : Int)
    (lid ents lc : JVal) (h : term ≥ rn.currentTerm) :
    handleAppendEntries rn fs term lid ents lc =
      ⟨(aeCommitApply (aeAppend rn term lid ents) (aeLeaderCommit lc)).1,
       if (decide (term > rn.currentTerm) || !(aeEntries ents).isEmpty) = true
       then saveState (aeCommitApply (aeAppend rn term lid ents) (aeLeaderCommit lc)).1 fs
       else fs,
       (aeCommitApply (aeAppend rn term lid ents) (aeLeaderCommit lc)).2,
       (aeCommitApply (aeAppend rn term lid ents) (aeLeaderCommit lc)).1.currentTerm,
       true⟩ := by
  simp only [handleAppendEntries, if_pos h]

/-- Branch equation for `handleAppendEntries` on a stale term: rejected
with nothing changed. -/
theorem handleAppendEntries_lt (rn : RaftNode) (fs : FS) (term : Int)
    (lid ents lc : JVal) (h : ¬ term ≥ rn.currentTerm) :
    handleAppendEntries rn fs term lid ents lc
      = ⟨rn, fs, [], rn.currentTerm, false⟩ := by
  simp only [handleAppendEntries, if_neg h]

/-- The commit-and-apply step changes neither the log nor the
persistent fields nor the role. -/
theorem aeCommitApply_proj (rn₂ : RaftNode) (lc : Int) :
    (aeCommitApply rn₂ lc).1.log = rn₂.log
    ∧ (aeCommitApply rn₂ lc).1.currentTerm = rn₂.currentTerm
    ∧ (aeCommitApply rn₂ lc).1.votedFor = rn₂.votedFor
    ∧ (aeCommitApply rn₂ lc).1.state = rn₂.state := by
  unfold aeCommitApply
  split
  · exact ⟨(applyCommitted_proj _).2.1, (applyCommitted_proj _).2.2.1,
      (applyCommitted_proj _).2.2.2.1, (applyCommitted_proj _).2.2.2.2⟩
  · exact ⟨rfl, rfl, rfl, rfl⟩

/-- The append-entries handler never changes `votedFor`. -/
theorem handleAppendEntries_votedFor (rn : RaftNode) (fs : FS) (term : Int)
    (lid ents lc : JVal) :
    (handleAppendEntries rn fs term lid ents lc).node.votedFor = rn.votedFor := by
  by_cases h : term ≥ rn.currentTerm
  · rw [handleAppendEntries_ge rn fs term lid ents lc h]
    exact (aeCommitApply_proj _ _).2.2.1
  · rw [handleAppendEntries_lt rn fs term lid ents lc h]

/-- On acceptance, the handler's log is the old log extended with the
parsed entries. -/
theorem handleAppendEntries_log_ge (rn : RaftNode) (fs : FS) (term : Int)
    (lid ents lc : JVal) (h : term ≥ rn.currentTerm) :
    (handleAppendEntries rn fs term lid ents lc).node.log
      = rn.log ++ aeEntries ents := by
  rw [handleAppendEntries_ge rn fs term lid ents lc h]
  exact (aeCommitApply_proj _ _).1

/-- C10: the apply dispatcher is total and stays inside the log — it
always drives `lastApplied` up to `commitIndex` (never diverging, even
if `commitIndex` were past the end of the log), every command it hands
to the callback is the non-nil command of an actual log entry (nil
commands are silently skipped), and an `APPEND_ENTRIES` entry object
whose `command` field is missing or not a JSON object is still
appended to the log, with a nil command. -/
theorem apply_dispatch_safe (rn : RaftNode) (fs : FS) (term : Int)
    (lid lc : JVal) (xs : List JVal) (fields : Cmd)
    (hterm : term ≥ rn.currentTerm)
    (hcmd : ∀ c, lookupField fields "command" ≠ some (.obj c)) :
    ((applyCommitted rn).1.lastApplied = max rn.lastApplied rn.commitIndex)
    ∧ (∀ c ∈ (applyCommitted rn).2, ∃ e ∈ rn.log, e.command = some c)
    ∧ parseWireEntry (.obj fields) = some ⟨entryTermOf fields, none⟩
    ∧ (handleAppendEntries rn fs term lid (.arr xs) lc).node.log
        = rn.log ++ xs.filterMap parseWireEntry := by
  refine ⟨applyCommitted_lastApplied rn,
    fun c hc => applyLoop_snd_mem rn.log _ _ _ c hc, ?_, ?_⟩
  · have hnone : entryCommandOf fields = none := by
      rcases hl : lookupField fields "command" with _ | v
      · simp [entryCommandOf, hl]
      · cases v with
        | obj c => exact absurd hl (hcmd c)
        | null => simp [entryCommandOf, hl]
        | jbool b => simp [entryCommandOf, hl]
        | num n => simp [entryCommandOf, hl]
        | str s => simp [entryCommandOf, hl]
        | arr a => simp [entryCommandOf, hl]
    simp [parseWireEntry, hnone]
  · rw [handleAppendEntries_log_ge rn fs term lid (.arr xs) lc hterm]
    rfl

/-- C10 witness: on a node whose log holds one real command and one nil
command, with `commitIndex = 1`, the dispatcher advances `lastApplied`
to 1; a wire entry with only a `term` field parses to a nil-command
log entry. -/
theorem apply_dispatch_safe_witness :
    (applyCommitted (mkNode 1 "" [⟨1, some [("a", JVal.str "x")]⟩, ⟨1, none⟩]
        1 (-1) "follower" [])).1.lastApplied = 1
    ∧ parseWireEntry (.obj [("term", JVal.num 1)]) = some ⟨1, none⟩ := by
  have h := apply_dispatch_safe
    (mkNode 1 "" [⟨1, some [("a", JVal.str "x")]⟩, ⟨1, none⟩] 1 (-1) "follower" [])
    none 1 .null .null [] [("term", JVal.num 1)] (by decide)
    (fun c => by simp [lookupField])
  exact ⟨h.1.trans (by decide), h.2.2.1⟩

/-- C3 (amended): `handleRequestVote` clears (or freshly re-casts)
`votedFor` whenever it advances `currentTerm`, and `startElection`
casts the node's own vote in the new term; but `handleAppendEntries`
never touches `votedFor` even when it advances `currentTerm`, so a
stale vote from an earlier term can survive a term change. -/
theorem votedFor_discipline (rn : RaftNode) (fs : FS) (term : Int)
    (cid : String) (lid ents lc : JVal) :
    ((handleRequestVote rn fs term cid).node.currentTerm > rn.currentTerm →
        (handleRequestVote rn fs term cid).node.votedFor = ""
        ∨ (handleRequestVote rn fs term cid).node.votedFor = cid)
    ∧ (startElectionBegin rn fs).1.votedFor = rn.id
    ∧ (startElectionBegin rn fs).1.currentTerm = rn.currentTerm + 1
    ∧ (handleAppendEntries rn fs term lid ents lc).node.votedFor
        = rn.votedFor := by
  refine ⟨fun hadv => ?_, rfl, rfl,
    handleAppendEntries_votedFor rn fs term lid ents lc⟩
  by_cases hgt : term > rn.currentTerm
  · rw [handleRequestVote_gt rn fs term cid hgt]
    exact Or.inr rfl
  · by_cases hcond : (rn.votedFor = "" ∨ rn.votedFor = cid) ∧ term ≥ rn.currentTerm
    · rw [handleRequestVote_le_grant rn fs term cid hgt hcond] at hadv ⊢
      exact absurd hadv (lt_irrefl _)
    · rw [handleRequestVote_reject rn fs term cid hgt hcond] at hadv
      exact absurd hadv (lt_irrefl _)

/-- C3 witness: a vote request with a higher term leaves `votedFor`
either empty or naming the fresh candidate. -/
theorem votedFor_discipline_witness :
    (handleRequestVote (mkNode 0 "B" [] (-1) (-1) "follower" []) none 2 "A").node.votedFor = ""
    ∨ (handleRequestVote (mkNode 0 "B" [] (-1) (-1) "follower" []) none 2 "A").node.votedFor = "A" := by
  have h := votedFor_discipline (mkNode 0 "B" [] (-1) (-1) "follower" [])
    none 2 "A" .null .null .null
  exact h.1 (by decide)

/-- C3 counterexample: a reachable node that voted for `A` in term 1
receives an `APPEND_ENTRIES` carrying term 2; in this single step
`currentTerm` advances from 1 to 2 while `votedFor` stays `A` — it is
not reset, and it now names a vote cast in an earlier term. -/
theorem votedFor_reset_counterexample :
    Reachable cxNode1 cxFs1
    ∧ Step cxNode1 cxFs1 cxNode2 cxFs2
    ∧ cxNode1.currentTerm = 1 ∧ cxNode1.votedFor = "A"
    ∧ cxNode2.currentTerm = 2 ∧ cxNode2.votedFor = "A" := by
  refine ⟨?_, ?_, by decide, by decide, by decide, by decide⟩
  · exact Reachable.step (Reachable.init "n1" "h" 10000 [] 9000 "dir" none)
      (Step.requestVote cxNode0 none 1 "A")
  · exact Step.appendEntries cxNode1 cxFs1 2 .null .null .null

/-- Commit-bounds are preserved by `loadState`, which touches only the
persistent triple. -/
theorem loadState_volatile (rn : RaftNode) (fs : FS) :
    (loadState rn fs).commitIndex = rn.commitIndex
    ∧ (loadState rn fs).lastApplied = rn.lastApplied := by
  unfold loadState
  split
  · exact ⟨rfl, rfl⟩
  · split
    · exact ⟨rfl, rfl⟩
    · exact ⟨rfl, rfl⟩

/-- The commit-and-apply step of the append-entries handler keeps both
cursors within the (unchanged) log. -/
theorem aeCommitApply_bounds (rn₂ : RaftNode) (lc : Int)
    (hla : rn₂.lastApplied ≤ (rn₂.log.length : Int) - 1)
    (hci : rn₂.commitIndex ≤ (rn₂.log.length : Int) - 1) :
    (aeCommitApply rn₂ lc).1.lastApplied
      ≤ ((aeCommitApply rn₂ lc).1.log.length : Int) - 1
    ∧ (aeCommitApply rn₂ lc).1.commitIndex
      ≤ ((aeCommitApply rn₂ lc).1.log.length : Int) - 1 := by
  unfold aeCommitApply
  split
  · constructor
    · rw [applyCommitted_lastApplied, (applyCommitted_proj _).2.1]
      exact max_le hla (min_le_right _ _)
    · rw [(applyCommitted_proj _).1, (applyCommitted_proj _).2.1]
      exact min_le_right _ _
  · exact ⟨hla, hci⟩

/-- The append-entries handler keeps both cursors within its
(possibly longer) log, and the log never shrinks. -/
theorem handleAppendEntries_bounds (rn : RaftNode) (fs : FS) (term : Int)
    (lid ents lc : JVal)
    (hla : rn.lastApplied ≤ (rn.log.length : Int) - 1)
    (hci : rn.commitIndex ≤ (rn.log.length : Int) - 1) :
    (handleAppendEntries rn fs term lid ents lc).node.lastApplied
      ≤ ((handleAppendEntries rn fs term lid ents lc).node.log.length : Int) - 1
    ∧ (handleAppendEntries rn fs term lid ents lc).node.commitIndex
      ≤ ((handleAppendEntries rn fs term lid ents lc).node.log.length : Int) - 1
    ∧ rn.log.length ≤ (handleAppendEntries rn fs term lid ents lc).node.log.length := by
  by_cases h : term ≥ rn.currentTerm
  · have hla2 : (aeAppend rn term lid ents).lastApplied
        ≤ ((aeAppend rn term lid ents).log.length : Int) - 1 := by
      show rn.lastApplied ≤ ((rn.log ++ aeEntries ents).length : Int) - 1
      rw [List.length_append]
      push_cast
      omega
    have hci2 : (aeAppend rn term lid ents).commitIndex
        ≤ ((aeAppend rn term lid ents).log.length : Int) - 1 := by
      show rn.commitIndex ≤ ((rn.log ++ aeEntries ents).length : Int) - 1
      rw [List.length_append]
      push_cast
      omega
    have hb := aeCommitApply_bounds (aeAppend rn term lid ents)
      (aeLeaderCommit lc) hla2 hci2
    rw [handleAppendEntries_ge rn fs term lid ents lc h]
    refine ⟨hb.1, hb.2, ?_⟩
    show rn.log.length
      ≤ (aeCommitApply (aeAppend rn term lid ents) (aeLeaderCommit lc)).1.log.length
    rw [(aeCommitApply_proj _ _).1]
    show rn.log.length ≤ (rn.log ++ aeEntries ents).length
    rw [List.length_append]
    omega
  · rw [handleAppendEntries_lt rn fs term lid ents lc h]
    exact ⟨hla, hci, le_rfl⟩

/-- The commit section of `Replicate` keeps both cursors within the
(unchanged) log, provided the captured index is itself within the
log. -/
theorem replicateCommitPhase_bounds (rn : RaftNode) (idx : Int)
    (acks : Nat)
    (hla : rn.lastApplied ≤ (rn.log.length : Int) - 1)
    (hci : rn.commitIndex ≤ (rn.log.length : Int) - 1)
    (hidx : idx ≤ (rn.log.length : Int) - 1) :
    (replicateCommitPhase rn idx acks).1.lastApplied
      ≤ ((replicateCommitPhase rn idx acks).1.log.length : Int) - 1
    ∧ (replicateCommitPhase rn idx acks).1.commitIndex
      ≤ ((replicateCommitPhase rn idx acks).1.log.length : Int) - 1
    ∧ (replicateCommitPhase rn idx acks).1.log = rn.log := by
  unfold replicateCommitPhase
  split
  · refine ⟨?_, ?_, (applyCommitted_proj _).2.1⟩
    · rw [applyCommitted_lastApplied, (applyCommitted_proj _).2.1]
      exact max_le hla hidx
    · rw [(applyCommitted_proj _).1, (applyCommitted_proj _).2.1]
      exact hidx
  · exact ⟨hla, hci, rfl⟩

/-- Every critical section of the interleaving-aware machine preserves
the surviving log bounds. -/
theorem cstep_preserves_logBounds {c c2 : Config} (hs : CStep c c2)
    (h : logBoundsInv c) : logBoundsInv c2 := by
  obtain ⟨h1, h2, h3⟩ := h
  cases hs with
  | requestVote term cid =>
    have hv := handleRequestVote_volatile c.node c.fs term cid
    refine ⟨?_, ?_, ?_⟩
    · show (handleRequestVote c.node c.fs term cid).node.lastApplied
        ≤ ((handleRequestVote c.node c.fs term cid).node.log.length : Int) - 1
      rw [hv.2.2, hv.1]
      exact h1
    · show (handleRequestVote c.node c.fs term cid).node.commitIndex
        ≤ ((handleRequestVote c.node c.fs term cid).node.log.length : Int) - 1
      rw [hv.2.1, hv.1]
      exact h2
    · show ∀ i ∈ c.pending, 0 ≤ i
        ∧ i ≤ ((handleRequestVote c.node c.fs term cid).node.log.length : Int) - 1
      rw [hv.1]
      exact h3
  | appendEntries term lid ents lc =>
    have hb := handleAppendEntries_bounds c.node c.fs term lid ents lc h1 h2
    refine ⟨hb.1, hb.2.1, ?_⟩
    show ∀ i ∈ c.pending, 0 ≤ i
      ∧ i ≤ ((handleAppendEntries c.node c.fs term lid ents lc).node.log.length : Int) - 1
    intro i hi
    have h4 := h3 i hi
    have h5 := hb.2.2
    have h6 := h4.2
    exact ⟨h4.1, by omega⟩
  | electionBegin => exact ⟨h1, h2, h3⟩
  | electionWin hc => exact ⟨h1, h2, h3⟩
  | applyStep =>
    refine ⟨?_, ?_, ?_⟩
    · show (applyCommitted c.node).1.lastApplied
        ≤ ((applyCommitted c.node).1.log.length : Int) - 1
      rw [applyCommitted_lastApplied, (applyCommitted_proj _).2.1]
      exact max_le h1 h2
    · show (applyCommitted c.node).1.commitIndex
        ≤ ((applyCommitted c.node).1.log.length : Int) - 1
      rw [(applyCommitted_proj _).1, (applyCommitted_proj _).2.1]
      exact h2
    · show ∀ i ∈ c.pending, 0 ≤ i
        ∧ i ≤ ((applyCommitted c.node).1.log.length : Int) - 1
      rw [(applyCommitted_proj _).2.1]
      exact h3
  | replicateBegin cmd hlead =>
    refine ⟨?_, ?_, ?_⟩
    · show c.node.lastApplied
        ≤ ((c.node.log ++ [(⟨c.node.currentTerm, some cmd⟩ : LogEntry)]).length : Int) - 1
      rw [List.length_append]
      push_cast
      omega
    · show c.node.commitIndex
        ≤ ((c.node.log ++ [(⟨c.node.currentTerm, some cmd⟩ : LogEntry)]).length : Int) - 1
      rw [List.length_append]
      push_cast
      omega
    · show ∀ i ∈ (replicateAppendPhase c.node cmd).2 :: c.pending, 0 ≤ i
        ∧ i ≤ ((replicateAppendPhase c.node cmd).1.log.length : Int) - 1
      intro i hi
      rcases List.mem_cons.mp hi with heq | htail
      · constructor
        · rw [heq]
          show (0 : Int)
            ≤ ((c.node.log ++ [(⟨c.node.currentTerm, some cmd⟩ : LogEntry)]).length : Int) - 1
          rw [List.length_append, List.length_singleton]
          push_cast
          omega
        · rw [heq]
          exact le_rfl
      · have h4 := h3 i htail
        refine ⟨h4.1, ?_⟩
        have h6 := h4.2
        show i ≤ ((c.node.log ++ [(⟨c.node.currentTerm, some cmd⟩ : LogEntry)]).length : Int) - 1
        rw [List.length_append]
        push_cast
        omega
  | replicateFinish idx acks hmem =>
    have h4 := h3 idx hmem
    have hb := replicateCommitPhase_bounds c.node idx acks h1 h2 h4.2
    refine ⟨hb.1, hb.2.1, ?_⟩
    show ∀ i ∈ c.pending.erase idx, 0 ≤ i
      ∧ i ≤ ((replicateCommitPhase c.node idx acks).1.log.length : Int) - 1
    intro i hi
    have h5 := h3 i (List.mem_of_mem_erase hi)
    refine ⟨h5.1, ?_⟩
    rw [hb.2.2]
    exact h5.2

/-- C4 (amended): the full claimed invariant fails under interleaving
(see the counterexample), but its surviving parts hold in every
reachable configuration of the interleaving-aware machine: both
`lastApplied` and `commitIndex` stay at most `len(log) - 1` (all
starting at -1 on a fresh node), and every `myIndex` captured by an
outstanding `Replicate` call is a valid log index. -/
theorem commit_bounds_amended (c : Config) (h : CReachable c) :
    c.node.lastApplied ≤ (c.node.log.length : Int) - 1
    ∧ c.node.commitIndex ≤ (c.node.log.length : Int) - 1
    ∧ ∀ i ∈ c.pending, 0 ≤ i ∧ i ≤ (c.node.log.length : Int) - 1 := by
  induction h with
  | init id host port peers wp path fs0 =>
    have hv := loadState_volatile (NewRaftNode id host port peers wp path) fs0
    refine ⟨?_, ?_, ?_⟩
    · show (loadState (NewRaftNode id host port peers wp path) fs0).lastApplied
        ≤ ((loadState (NewRaftNode id host port peers wp path) fs0).log.length : Int) - 1
      rw [hv.2]
      show (-1 : Int)
        ≤ ((loadState (NewRaftNode id host port peers wp path) fs0).log.length : Int) - 1
      omega
    · show (loadState (NewRaftNode id host port peers wp path) fs0).commitIndex
        ≤ ((loadState (NewRaftNode id host port peers wp path) fs0).log.length : Int) - 1
      rw [hv.1]
      show (-1 : Int)
        ≤ ((loadState (NewRaftNode id host port peers wp path) fs0).log.length : Int) - 1
      omega
    · intro i hi
      exact absurd hi (List.not_mem_nil i)
  | step hr hstep ih => exact cstep_preserves_logBounds hstep ih

/-- C4 witness: the surviving bounds hold on a freshly started
configuration. -/
theorem commit_bounds_amended_witness :
    cx4a.node.lastApplied ≤ (cx4a.node.log.length : Int) - 1 := by
  have h := commit_bounds_amended cx4a
    (CReachable.init "n1" "h" 10000 [] 9000 "dir" none)
  exact h.1

/-- C4 counterexample: a reachable interleaving of two `Replicate`
calls on a single-node leader violates `lastApplied ≤ commitIndex`.
The first call appends entry 0 and releases the mutex; the second
appends entry 1 and commits first, driving `commitIndex` and
`lastApplied` to 1; the first call's commit section then sets
`commitIndex := 0` unconditionally, leaving
`lastApplied = 1 > commitIndex = 0`. -/
theorem commit_bounds_counterexample :
    CReachable cx4g
    ∧ cx4g.node.lastApplied = 1
    ∧ cx4g.node.commitIndex = 0
    ∧ ¬ commitInv cx4g.node := by
  refine ⟨?_, by decide, by decide, fun hinv => absurd hinv.1 (by decide)⟩
  exact CReachable.step (CReachable.step (CReachable.step (CReachable.step
    (CReachable.step (CReachable.step
      (CReachable.init "n1" "h" 10000 [] 9000 "dir" none)
      (CStep.electionBegin cx4a))
      (CStep.electionWin cx4b rfl))
      (CStep.replicateBegin cx4c [("k", JVal.num 1)] rfl))
      (CStep.replicateBegin cx4d [("k", JVal.num 2)] rfl))
      (CStep.replicateFinish cx4e 1 0 (by decide)))
      (CStep.replicateFinish cx4f 0 0 (by decide))

end Raft
